import Mathlib

/-!
Shallow embedding of the `example_package` repository: `calculator.py`
(a `Calculator` with an append-only string history) and
`core/data_processor.py` (a `DataProcessor` with elementwise transforms,
statistics and z-score outlier filtering).

Modelling choices:
* Python numbers (`int`/`float`) are modelled as exact rationals `ℚ`.
* `np.sqrt` / the square root inside `np.std` produce irrational values,
  so every definition that calls the square-root routine takes it as an
  explicit function parameter `s : ℚ → ℚ`; theorems about it either hold
  for every `s` or assume `s` behaves as a genuine square root at the
  one value where it is applied.
* Python exceptions are modelled with `Except`; a method that mutates
  `self` returns the new object state explicitly, and a failing call
  returns the old state unchanged (a raised exception leaves the object
  untouched).
* Python f-string formatting is modelled with the default Lean
  `toString` on `ℚ`.
-/

deriving instance DecidableEq for Except

namespace ExamplePackage

/-- Error raised by `Calculator.divide` (`ValueError: Cannot divide by zero`). -/
inductive CalcError where
  | divisionByZero
deriving DecidableEq, Repr

/-- State of `calculator.py`: `self.history: list[str]` is the only field. -/
structure Calculator where
  history : List String
deriving DecidableEq, Repr

/-- Constructor `Calculator.__init__`: history starts empty. -/
def Calculator.new : Calculator := ⟨[]⟩

/-- The history entry `f"{a} + {b} = {result}"`. -/
def addEntry (a b result : ℚ) : String :=
  toString a ++ " + " ++ toString b ++ " = " ++ toString result

/-- The history entry `f"{a} - {b} = {result}"`. -/
def subEntry (a b result : ℚ) : String :=
  toString a ++ " - " ++ toString b ++ " = " ++ toString result

/-- The history entry `f"{a} * {b} = {result}"`. -/
def mulEntry (a b result : ℚ) : String :=
  toString a ++ " * " ++ toString b ++ " = " ++ toString result

/-- The history entry `f"{a} / {b} = {result}"`. -/
def divideEntry (a b result : ℚ) : String :=
  toString a ++ " / " ++ toString b ++ " = " ++ toString result

/-- Method `Calculator.add`: returns `a + b` and appends one entry. -/
def Calculator.add (c : Calculator) (a b : ℚ) : ℚ × Calculator :=
  let result := a + b
  (result, ⟨c.history ++ [addEntry a b result]⟩)

/-- Method `Calculator.subtract`: returns `a - b` and appends one entry. -/
def Calculator.subtract (c : Calculator) (a b : ℚ) : ℚ × Calculator :=
  let result := a - b
  (result, ⟨c.history ++ [subEntry a b result]⟩)

/-- Method `Calculator.multiply`: returns `a * b` and appends one entry. -/
def Calculator.multiply (c : Calculator) (a b : ℚ) : ℚ × Calculator :=
  let result := a * b
  (result, ⟨c.history ++ [mulEntry a b result]⟩)

/-- Method `Calculator.divide`: raises on `b == 0` (state unchanged), otherwise
returns `a / b` and appends one entry. -/
def Calculator.divide (c : Calculator) (a b : ℚ) : Except CalcError ℚ × Calculator :=
  if b = 0 then (Except.error CalcError.divisionByZero, c)
  else
    let result := a / b
    (Except.ok result, ⟨c.history ++ [divideEntry a b result]⟩)

/-- Method `Calculator.get_history`: returns (a copy of) the history. -/
def Calculator.get_history (c : Calculator) : List String := c.history

/-- Method `Calculator.clear_history`: empties the history. -/
def Calculator.clear_history (_c : Calculator) : Calculator := ⟨[]⟩

/-- One call to a state-changing `Calculator` method, for reasoning about
sequences of calls. -/
inductive CalcOp where
  | add (a b : ℚ)
  | subtract (a b : ℚ)
  | multiply (a b : ℚ)
  | divide (a b : ℚ)
  | clearHistory
deriving DecidableEq, Repr

/-- State transition of one `Calculator` call (results are discarded,
only the state matters). -/
def Calculator.step (c : Calculator) : CalcOp → Calculator
  | CalcOp.add a b => (c.add a b).2
  | CalcOp.subtract a b => (c.subtract a b).2
  | CalcOp.multiply a b => (c.multiply a b).2
  | CalcOp.divide a b => (c.divide a b).2
  | CalcOp.clearHistory => c.clear_history

/-- Run a sequence of `Calculator` calls from a given state. -/
def Calculator.run (c : Calculator) (ops : List CalcOp) : Calculator :=
  ops.foldl Calculator.step c

/-- The history entry a call appends on success: `none` for a failing
`divide` and for `clear_history`, `some` of the formatted string otherwise. -/
def CalcOp.entryOf : CalcOp → Option String
  | CalcOp.add a b => some (addEntry a b (a + b))
  | CalcOp.subtract a b => some (subEntry a b (a - b))
  | CalcOp.multiply a b => some (mulEntry a b (a * b))
  | CalcOp.divide a b => if b = 0 then none else some (divideEntry a b (a / b))
  | CalcOp.clearHistory => none

/-- How one call changes the history length: reset to `0` on clear,
unchanged on a failing divide, `+1` on a successful arithmetic call. -/
def stepCount (n : Nat) : CalcOp → Nat
  | CalcOp.clearHistory => 0
  | CalcOp.divide _ b => if b = 0 then n else n + 1
  | _ => n + 1

/-- Number of successful arithmetic calls since the last `clear_history`
(or since the start, if no clear occurred). -/
def successesSinceClear (ops : List CalcOp) : Nat :=
  ops.foldl stepCount 0

/-- Error raised by `DataProcessor` methods: `ValueError("Data cannot be
empty")` or `ValueError(f"Invalid operation: {operation}")`. -/
inductive DPError where
  | emptyInput
  | invalidOperation (op : String)
deriving DecidableEq, Repr

/-- State of `data_processor.py`: the only field is the `normalize` flag set at
construction (default `False`). -/
structure DataProcessor where
  normalize : Bool
deriving DecidableEq, Repr

/-- Embedding of `np.min` over a nonempty array (the `0` default is never reached:
every caller has rejected empty input first). -/
def listMin : List ℚ → ℚ
  | [] => 0
  | x :: xs => xs.foldl min x

/-- Embedding of `np.max` over a nonempty array. -/
def listMax : List ℚ → ℚ
  | [] => 0
  | x :: xs => xs.foldl max x

/-- Embedding of `np.mean`: sum divided by length. -/
def listMean (l : List ℚ) : ℚ := l.sum / (l.length : ℚ)

/-- Method `DataProcessor._normalize`: min-max scaling, with the `max == min`
branch returning `np.zeros_like(arr)`. -/
def DataProcessor._normalize (arr : List ℚ) : List ℚ :=
  let minVal := listMin arr
  let maxVal := listMax arr
  if maxVal = minVal then arr.map (fun _ => (0 : ℚ))
  else arr.map (fun x => (x - minVal) / (maxVal - minVal))

/-- Method `DataProcessor.process` with square-root routine `s` (the embedding
of `np.sqrt` applied elementwise). The inner `if`-chain is the
`operation` dispatch; an unrecognized name raises; then the
post-processing normalize step runs when the flag is set and the
operation was not itself `normalize`. -/
def DataProcessor.process (dp : DataProcessor) (s : ℚ → ℚ) (data : List ℚ)
    (operation : String) : Except DPError (List ℚ) :=
  if data = [] then Except.error DPError.emptyInput
  else
    match (if operation = "identity" then some data
           else if operation = "square" then some (data.map (fun x => x ^ 2))
           else if operation = "sqrt" then some (data.map (fun x => s |x|))
           else if operation = "normalize" then some (DataProcessor._normalize data)
           else none) with
    | none => Except.error (DPError.invalidOperation operation)
    | some result =>
        Except.ok (if dp.normalize = true ∧ operation ≠ "normalize"
                   then DataProcessor._normalize result else result)

/-- The result mapping of `DataProcessor.statistics`: a dict with exactly
the keys `mean`, `std`, `min`, `max`. -/
structure Stats where
  mean : ℚ
  std : ℚ
  min : ℚ
  max : ℚ
deriving DecidableEq, Repr

/-- Method `DataProcessor.statistics` with square-root routine `s`: `np.std` is
the square root of the mean of the squared deviations (population form,
`ddof = 0`). -/
def DataProcessor.statistics (s : ℚ → ℚ) (data : List ℚ) : Except DPError Stats :=
  if data = [] then Except.error DPError.emptyInput
  else
    Except.ok
      { mean := listMean data
      , std := s (listMean (data.map (fun x => (x - listMean data) ^ 2)))
      , min := listMin data
      , max := listMax data }

/-- The population variance as the spec words it: sum of squared
deviations divided by `N` (not `N - 1`). -/
def popVariance (data : List ℚ) : ℚ :=
  (data.map (fun x => (x - listMean data) ^ 2)).sum / (data.length : ℚ)

/-- Method `DataProcessor.filter_outliers` with square-root routine `s`:
returns short or zero-variance data unchanged, otherwise keeps the
elements whose z-score `|x - mean| / std` is below `threshold`. -/
def DataProcessor.filter_outliers (s : ℚ → ℚ) (data : List ℚ)
    (threshold : ℚ) : Except DPError (List ℚ) :=
  if data = [] then Except.error DPError.emptyInput
  else if data.length < 3 then Except.ok data
  else
    let mean := listMean data
    let std := s (listMean (data.map (fun x => (x - mean) ^ 2)))
    if std = 0 then Except.ok data
    else Except.ok (data.filter (fun x => decide (|x - mean| / std < threshold)))

/-! Helper lemmas shared by the claim theorems. -/

/-- One `Calculator` call changes the history length exactly as
`stepCount` says. -/
theorem step_history_length (c : Calculator) (op : CalcOp) :
    (c.step op).history.length = stepCount c.history.length op := by
  cases op with
  | add a b => simp [Calculator.step, Calculator.add, stepCount]
  | subtract a b => simp [Calculator.step, Calculator.subtract, stepCount]
  | multiply a b => simp [Calculator.step, Calculator.multiply, stepCount]
  | divide a b =>
    by_cases hb : b = 0
    · simp [Calculator.step, Calculator.divide, stepCount, hb]
    · simp [Calculator.step, Calculator.divide, stepCount, hb]
  | clearHistory => simp [Calculator.step, Calculator.clear_history, stepCount]

/-- Running a call sequence folds `stepCount` over the history length. -/
theorem run_history_length (ops : List CalcOp) :
    ∀ c : Calculator, (c.run ops).history.length = ops.foldl stepCount c.history.length := by
  induction ops with
  | nil => intro c; rfl
  | cons op rest ih =>
    intro c
    have h1 : Calculator.run c (op :: rest) = Calculator.run (c.step op) rest := rfl
    have h2 : (op :: rest).foldl stepCount c.history.length =
        rest.foldl stepCount (stepCount c.history.length op) := rfl
    rw [h1, h2, ih (c.step op), step_history_length]

/-- A non-`clear_history` call appends exactly its `entryOf` (nothing on
a failing divide) to the history. -/
theorem step_history_append (c : Calculator) (op : CalcOp)
    (hop : op ≠ CalcOp.clearHistory) :
    (c.step op).history = c.history ++ op.entryOf.toList := by
  cases op with
  | add a b => simp [Calculator.step, Calculator.add, CalcOp.entryOf]
  | subtract a b => simp [Calculator.step, Calculator.subtract, CalcOp.entryOf]
  | multiply a b => simp [Calculator.step, Calculator.multiply, CalcOp.entryOf]
  | divide a b =>
    by_cases hb : b = 0
    · simp [Calculator.step, Calculator.divide, CalcOp.entryOf, hb]
    · simp [Calculator.step, Calculator.divide, CalcOp.entryOf, hb]
  | clearHistory => exact absurd rfl hop

/-- Folding `min` never exceeds the seed or any list element. -/
theorem foldl_min_le (xs : List ℚ) (a : ℚ) :
    xs.foldl min a ≤ a ∧ ∀ x ∈ xs, xs.foldl min a ≤ x := by
  induction xs generalizing a with
  | nil => simp
  | cons y ys ih =>
    simp only [List.foldl_cons, List.mem_cons]
    refine ⟨le_trans (ih (min a y)).1 (min_le_left a y), fun x hx => ?_⟩
    rcases hx with rfl | hx
    · exact le_trans (ih (min a x)).1 (min_le_right a x)
    · exact (ih (min a y)).2 x hx

/-- Folding `min` yields the seed or some list element. -/
theorem foldl_min_mem (xs : List ℚ) (a : ℚ) :
    xs.foldl min a = a ∨ xs.foldl min a ∈ xs := by
  induction xs generalizing a with
  | nil => simp
  | cons y ys ih =>
    simp only [List.foldl_cons, List.mem_cons]
    rcases ih (min a y) with h | h
    · rcases le_total a y with hay | hya
      · left; rw [h, min_eq_left hay]
      · right; left; rw [h, min_eq_right hya]
    · right; right; exact h

/-- Folding `max` is at least the seed and every list element. -/
theorem le_foldl_max (xs : List ℚ) (a : ℚ) :
    a ≤ xs.foldl max a ∧ ∀ x ∈ xs, x ≤ xs.foldl max a := by
  induction xs generalizing a with
  | nil => simp
  | cons y ys ih =>
    simp only [List.foldl_cons, List.mem_cons]
    refine ⟨le_trans (le_max_left a y) (ih (max a y)).1, fun x hx => ?_⟩
    rcases hx with rfl | hx
    · exact le_trans (le_max_right a x) (ih (max a x)).1
    · exact (ih (max a y)).2 x hx

/-- Folding `max` yields the seed or some list element. -/
theorem foldl_max_mem (xs : List ℚ) (a : ℚ) :
    xs.foldl max a = a ∨ xs.foldl max a ∈ xs := by
  induction xs generalizing a with
  | nil => simp
  | cons y ys ih =>
    simp only [List.foldl_cons, List.mem_cons]
    rcases ih (max a y) with h | h
    · rcases le_total a y with hay | hya
      · right; left; rw [h, max_eq_right hay]
      · left; rw [h, max_eq_left hya]
    · right; right; exact h

/-- On nonempty data, `listMin` is an element of the data. -/
theorem listMin_mem (data : List ℚ) (hne : data ≠ []) : listMin data ∈ data := by
  match data with
  | [] => exact absurd rfl hne
  | x :: xs =>
    rcases foldl_min_mem xs x with h | h
    · rw [listMin, h]; exact List.mem_cons_self x xs
    · rw [listMin]; exact List.mem_cons_of_mem x h

/-- On nonempty data, `listMax` is an element of the data. -/
theorem listMax_mem (data : List ℚ) (hne : data ≠ []) : listMax data ∈ data := by
  match data with
  | [] => exact absurd rfl hne
  | x :: xs =>
    rcases foldl_max_mem xs x with h | h
    · rw [listMax, h]; exact List.mem_cons_self x xs
    · rw [listMax]; exact List.mem_cons_of_mem x h

/-- Every element is at least `listMin`. -/
theorem listMin_le (data : List ℚ) : ∀ x ∈ data, listMin data ≤ x := by
  match data with
  | [] => intro x hx; exact absurd hx (List.not_mem_nil x)
  | y :: ys =>
    intro x hx
    rcases List.mem_cons.1 hx with rfl | hx
    · exact (foldl_min_le ys x).1
    · exact (foldl_min_le ys y).2 x hx

/-- Every element is at most `listMax`. -/
theorem le_listMax (data : List ℚ) : ∀ x ∈ data, x ≤ listMax data := by
  match data with
  | [] => intro x hx; exact absurd hx (List.not_mem_nil x)
  | y :: ys =>
    intro x hx
    rcases List.mem_cons.1 hx with rfl | hx
    · exact (le_foldl_max ys x).1
    · exact (le_foldl_max ys y).2 x hx

/-- Mean of the squared deviations, as computed inside `statistics` and
`filter_outliers`, equals `popVariance`. -/
theorem listMean_sqdev (data : List ℚ) :
    listMean (data.map (fun x => (x - listMean data) ^ 2)) = popVariance data := by
  simp [listMean, popVariance]

/-! Claim theorems. -/

/-- C7: for every pair of rationals `a`, `b` with `b = 0`,
`Calculator.divide a b` raises `DivisionByZero` and the history is left
completely unchanged (no entry is appended on failure). -/
theorem divide_by_zero_raises_and_preserves_history
    (c : Calculator) (a b : ℚ) (hb : b = 0) :
    (c.divide a b).1 = Except.error CalcError.divisionByZero ∧
    (c.divide a b).2.history = c.history := by
  subst hb
  simp [Calculator.divide]

/-- Witness for C7 at `c = ⟨["seed"]⟩`, `a = 3`, `b = 0`. -/
theorem divide_by_zero_raises_and_preserves_history_witness :
    ((Calculator.mk ["seed"]).divide 3 0).1 = Except.error CalcError.divisionByZero ∧
    ((Calculator.mk ["seed"]).divide 3 0).2.history = ["seed"] :=
  divide_by_zero_raises_and_preserves_history (Calculator.mk ["seed"]) 3 0 rfl

/-- C8: for every pair of rationals `a`, `b` with `b ≠ 0`,
`Calculator.divide a b` returns `a / b` and appends exactly one history
entry, formatted `"{a} / {b} = {result}"` with the default
number-to-string conversion. -/
theorem divide_returns_quotient_and_appends_entry
    (c : Calculator) (a b : ℚ) (hb : b ≠ 0) :
    (c.divide a b).1 = Except.ok (a / b) ∧
    (c.divide a b).2.history = c.history ++ [divideEntry a b (a / b)] := by
  simp [Calculator.divide, hb]

/-- Witness for C8 at `c = Calculator.new`, `a = 1`, `b = 2`. -/
theorem divide_returns_quotient_and_appends_entry_witness :
    (2 : ℚ) ≠ 0 ∧
    (Calculator.new.divide 1 2).1 = Except.ok ((1 : ℚ) / 2) ∧
    (Calculator.new.divide 1 2).2.history = [divideEntry 1 2 ((1 : ℚ) / 2)] := by
  have h := divide_returns_quotient_and_appends_entry Calculator.new 1 2 (by norm_num)
  exact ⟨by norm_num, h.1, h.2⟩

/-- C9: after any sequence of calls from a fresh `Calculator`, the
history length equals the number of successful arithmetic calls since
construction or the last `clear_history`; a non-clear call only appends
(its entry on success, nothing on a failing divide), so entries stay in
call order, and `clear_history` is the only operation that removes
entries (it empties the log). -/
theorem history_tracks_successful_calls
    (ops : List CalcOp) (c : Calculator) (op : CalcOp)
    (hop : op ≠ CalcOp.clearHistory) :
    (Calculator.new.run ops).history.length = successesSinceClear ops ∧
    (c.step op).history = c.history ++ op.entryOf.toList ∧
    (c.step CalcOp.clearHistory).history = [] := by
  refine ⟨?_, step_history_append c op hop, ?_⟩
  · rw [run_history_length]; rfl
  · simp [Calculator.step, Calculator.clear_history]

/-- Witness for C9 on the call sequence
`add 1 2; divide 1 0; clear_history; multiply 2 3` (one success since the
clear) and the single step `divide 1 0` from history `["seed"]`. -/
theorem history_tracks_successful_calls_witness :
    (Calculator.new.run
        [CalcOp.add 1 2, CalcOp.divide 1 0, CalcOp.clearHistory,
         CalcOp.multiply 2 3]).history.length =
      successesSinceClear
        [CalcOp.add 1 2, CalcOp.divide 1 0, CalcOp.clearHistory,
         CalcOp.multiply 2 3] ∧
    ((Calculator.mk ["seed"]).step (CalcOp.divide 1 0)).history =
      ["seed"] ++ (CalcOp.divide 1 0).entryOf.toList ∧
    successesSinceClear
        [CalcOp.add 1 2, CalcOp.divide 1 0, CalcOp.clearHistory,
         CalcOp.multiply 2 3] = 1 := by
  have h := history_tracks_successful_calls
    [CalcOp.add 1 2, CalcOp.divide 1 0, CalcOp.clearHistory, CalcOp.multiply 2 3]
    (Calculator.mk ["seed"]) (CalcOp.divide 1 0) (by decide)
  exact ⟨h.1, h.2.1, by decide⟩

/-- C10: for empty data and any operation string, recognized or not,
`process` raises `EmptyInput` rather than `InvalidOperation`: the
emptiness check precedes operation-name validation. -/
theorem process_empty_checked_before_operation
    (dp : DataProcessor) (s : ℚ → ℚ) (op : String) :
    dp.process s [] op = Except.error DPError.emptyInput := by
  simp [DataProcessor.process]

/-- C4: with the `normalize` flag false, on nonempty data `process`
returns the input unchanged for `identity`, `x ^ 2` elementwise for
`square`, and the square root of `|x|` elementwise for `sqrt` (so
negative inputs are made nonnegative before the root); each output has
the same length and order as the input (it is an elementwise map). -/
theorem process_identity_square_sqrt (s : ℚ → ℚ) (data : List ℚ) (hne : data ≠ []) :
    DataProcessor.process ⟨false⟩ s data "identity" = Except.ok data ∧
    DataProcessor.process ⟨false⟩ s data "square" =
      Except.ok (data.map (fun x => x ^ 2)) ∧
    DataProcessor.process ⟨false⟩ s data "sqrt" =
      Except.ok (data.map (fun x => s |x|)) ∧
    (data.map (fun x => x ^ 2)).length = data.length ∧
    (data.map (fun x => s |x|)).length = data.length := by
  refine ⟨?_, ?_, ?_, by simp, by simp⟩ <;> simp [DataProcessor.process, hne]

/-- Witness for C4 at `s = id`, `data = [1, 4, -9]`. -/
theorem process_identity_square_sqrt_witness :
    ([1, 4, -9] : List ℚ) ≠ [] ∧
    DataProcessor.process ⟨false⟩ id [1, 4, -9] "identity" = Except.ok [1, 4, -9] ∧
    DataProcessor.process ⟨false⟩ id [1, 4, -9] "square" = Except.ok [1, 16, 81] ∧
    DataProcessor.process ⟨false⟩ id [1, 4, -9] "sqrt" = Except.ok [1, 4, 9] := by
  have h := process_identity_square_sqrt id [1, 4, -9] (by decide)
  exact ⟨by decide, h.1, by decide, by decide⟩

/-- C2: on nonempty data, when the `normalize` flag is true and the
requested operation is not `normalize`, `process` returns the normalize
transform applied to the result of the requested operation; requesting
`normalize` applies the transform exactly once, whatever the flag. -/
theorem process_normalize_postprocessing (dp dp2 : DataProcessor) (s : ℚ → ℚ)
    (data : List ℚ) (hne : data ≠ []) (hflag : dp.normalize = true) :
    dp.process s data "identity" = Except.ok (DataProcessor._normalize data) ∧
    dp.process s data "square" =
      Except.ok (DataProcessor._normalize (data.map (fun x => x ^ 2))) ∧
    dp.process s data "sqrt" =
      Except.ok (DataProcessor._normalize (data.map (fun x => s |x|))) ∧
    dp2.process s data "normalize" = Except.ok (DataProcessor._normalize data) := by
  refine ⟨?_, ?_, ?_, ?_⟩ <;> simp [DataProcessor.process, hne, hflag]

/-- Witness for C2 at `dp = ⟨true⟩`, `dp2 = ⟨false⟩`, `s = id`,
`data = [10, 20, 30]`: squaring then normalizing gives `[0, 3/8, 1]`,
whose min is `0` and max is `1`. -/
theorem process_normalize_postprocessing_witness :
    ([10, 20, 30] : List ℚ) ≠ [] ∧
    DataProcessor.process ⟨true⟩ id [10, 20, 30] "square" =
      Except.ok (DataProcessor._normalize ([10, 20, 30].map (fun x => x ^ 2))) ∧
    DataProcessor.process ⟨true⟩ id [10, 20, 30] "square" = Except.ok [0, 3/8, 1] ∧
    DataProcessor.process ⟨false⟩ id [10, 20, 30] "normalize" = Except.ok [0, 1/2, 1] := by
  have h := process_normalize_postprocessing ⟨true⟩ ⟨false⟩ id [10, 20, 30]
    (by decide) rfl
  refine ⟨by decide, h.2.1, ?_, ?_⟩
  · rw [h.2.1]
    norm_num [DataProcessor._normalize, listMin, listMax, min_def, max_def]
  · rw [h.2.2.2]
    norm_num [DataProcessor._normalize, listMin, listMax, min_def, max_def]

/-- C3: on nonempty data whose minimum equals its maximum, the normalize
transform returns zeros of the same length (the zero-denominator
division is never reached), both via `operation = "normalize"` and via
the post-processing flag. -/
theorem normalize_constant_returns_zeros (dp dp2 : DataProcessor) (s : ℚ → ℚ)
    (data : List ℚ) (hne : data ≠ []) (hconst : listMin data = listMax data)
    (hflag : dp.normalize = true) :
    DataProcessor._normalize data = data.map (fun _ => (0 : ℚ)) ∧
    (DataProcessor._normalize data).length = data.length ∧
    dp2.process s data "normalize" = Except.ok (data.map (fun _ => (0 : ℚ))) ∧
    dp.process s data "identity" = Except.ok (data.map (fun _ => (0 : ℚ))) := by
  have h0 : DataProcessor._normalize data = data.map (fun _ => (0 : ℚ)) := by
    simp [DataProcessor._normalize, hconst]
  refine ⟨h0, by rw [h0]; simp, ?_, ?_⟩ <;>
    simp [DataProcessor.process, hne, hflag, h0]

/-- Witness for C3 at `data = [5, 5, 5]` (the constant-input
example): the result is `[0, 0, 0]` with no division-by-zero crash. -/
theorem normalize_constant_returns_zeros_witness :
    ([5, 5, 5] : List ℚ) ≠ [] ∧
    listMin [5, 5, 5] = listMax [5, 5, 5] ∧
    DataProcessor._normalize [5, 5, 5] = [0, 0, 0] ∧
    DataProcessor.process ⟨false⟩ id [5, 5, 5] "normalize" = Except.ok [0, 0, 0] ∧
    DataProcessor.process ⟨true⟩ id [5, 5, 5] "identity" = Except.ok [0, 0, 0] := by
  have h := normalize_constant_returns_zeros ⟨true⟩ ⟨false⟩ id [5, 5, 5]
    (by decide) (by decide) rfl
  exact ⟨by decide, by decide, by decide, by decide, by decide⟩

/-- C5: on nonempty data, `statistics` returns a mapping with exactly
the keys `mean`, `std`, `min`, `max`; `mean` is the arithmetic mean,
`std` is the square root of the population variance (sum of squared
deviations divided by `N`, not `N - 1`), and `min`/`max` are a least and
a greatest element of the data. -/
theorem statistics_returns_population_stats (s : ℚ → ℚ) (data : List ℚ)
    (hne : data ≠ []) :
    DataProcessor.statistics s data =
      Except.ok { mean := listMean data, std := s (popVariance data),
                  min := listMin data, max := listMax data } ∧
    listMean data = data.sum / (data.length : ℚ) ∧
    popVariance data =
      (data.map (fun x => (x - listMean data) ^ 2)).sum / (data.length : ℚ) ∧
    listMin data ∈ data ∧ listMax data ∈ data ∧
    ∀ x ∈ data, listMin data ≤ x ∧ x ≤ listMax data := by
  refine ⟨?_, rfl, rfl, listMin_mem data hne, listMax_mem data hne,
    fun x hx => ⟨listMin_le data x hx, le_listMax data x hx⟩⟩
  unfold DataProcessor.statistics
  rw [if_neg hne, listMean_sqdev]

/-- Witness for C5 at `s = id`, `data = [1, 2, 3]`: mean `2`, variance
`2/3`, min `1`, max `3`. -/
theorem statistics_returns_population_stats_witness :
    ([1, 2, 3] : List ℚ) ≠ [] ∧
    DataProcessor.statistics id [1, 2, 3] =
      Except.ok { mean := listMean [1, 2, 3], std := id (popVariance [1, 2, 3]),
                  min := listMin [1, 2, 3], max := listMax [1, 2, 3] } ∧
    DataProcessor.statistics id [1, 2, 3] =
      Except.ok { mean := 2, std := 2/3, min := 1, max := 3 } := by
  have h := statistics_returns_population_stats id [1, 2, 3] (by decide)
  refine ⟨by decide, h.1, ?_⟩
  rw [h.1]
  norm_num [listMean, popVariance, listMin, listMax, min_def, max_def]

/-- C6: `process`, `statistics` and `filter_outliers` all raise
`EmptyInput` on an empty sequence; `process` raises `InvalidOperation`
on an unrecognized name; and on nonempty data with a recognized
operation no method raises. -/
theorem dataprocessor_error_taxonomy (dp : DataProcessor) (s : ℚ → ℚ)
    (data : List ℚ) (op bogus : String) (t : ℚ) (hne : data ≠ [])
    (hop : op = "identity" ∨ op = "square" ∨ op = "sqrt" ∨ op = "normalize")
    (hbogus : bogus ≠ "identity" ∧ bogus ≠ "square" ∧ bogus ≠ "sqrt" ∧
      bogus ≠ "normalize") :
    dp.process s [] op = Except.error DPError.emptyInput ∧
    DataProcessor.statistics s [] = Except.error DPError.emptyInput ∧
    DataProcessor.filter_outliers s [] t = Except.error DPError.emptyInput ∧
    dp.process s data bogus = Except.error (DPError.invalidOperation bogus) ∧
    (∃ r, dp.process s data op = Except.ok r) ∧
    (∃ r, DataProcessor.statistics s data = Except.ok r) ∧
    (∃ r, DataProcessor.filter_outliers s data t = Except.ok r) := by
  obtain ⟨h1, h2, h3, h4⟩ := hbogus
  refine ⟨by simp [DataProcessor.process], by simp [DataProcessor.statistics],
    by simp [DataProcessor.filter_outliers],
    by simp [DataProcessor.process, hne, h1, h2, h3, h4], ?_,
    ⟨_, by unfold DataProcessor.statistics; rw [if_neg hne]⟩, ?_⟩
  · rcases hop with rfl | rfl | rfl | rfl <;> simp [DataProcessor.process, hne]
  · unfold DataProcessor.filter_outliers
    rw [if_neg hne]
    dsimp only
    split
    · exact ⟨_, rfl⟩
    · split
      · exact ⟨_, rfl⟩
      · exact ⟨_, rfl⟩

/-- Witness for C6 at `dp = ⟨false⟩`, `s = id`, `data = [1, 2]`,
`op = "square"`, `bogus = "bogus"`, `t = 2`. -/
theorem dataprocessor_error_taxonomy_witness :
    ([1, 2] : List ℚ) ≠ [] ∧
    DataProcessor.process ⟨false⟩ id ([] : List ℚ) "square" =
      Except.error DPError.emptyInput ∧
    DataProcessor.statistics id ([] : List ℚ) = Except.error DPError.emptyInput ∧
    DataProcessor.filter_outliers id ([] : List ℚ) 2 =
      Except.error DPError.emptyInput ∧
    DataProcessor.process ⟨false⟩ id [1, 2] "bogus" =
      Except.error (DPError.invalidOperation "bogus") ∧
    (∃ r, DataProcessor.process ⟨false⟩ id [1, 2] "square" = Except.ok r) ∧
    DataProcessor.process ⟨false⟩ id [1, 2] "square" = Except.ok [1, 4] := by
  have h := dataprocessor_error_taxonomy ⟨false⟩ id [1, 2] "square" "bogus" 2
    (by decide) (Or.inr (Or.inl rfl)) ⟨by decide, by decide, by decide, by decide⟩
  exact ⟨by decide, h.1, h.2.1, h.2.2.1, h.2.2.2.1, h.2.2.2.2.1, by decide⟩

/-- C1: on nonempty data, when `s` is a genuine square root at the
population variance, `filter_outliers` returns the data unchanged when
it has fewer than 3 elements or when the population standard deviation
is zero (equivalently, the variance is zero); otherwise it returns
exactly the elements with z-score `|x - mean| / std` below `threshold`,
in original relative order, and a negative threshold yields an empty
result. -/
theorem filter_outliers_zscore (s : ℚ → ℚ) (data : List ℚ) (threshold : ℚ)
    (hne : data ≠ [])
    (hs0 : 0 ≤ s (popVariance data))
    (hs : s (popVariance data) ^ 2 = popVariance data) :
    (data.length < 3 →
      DataProcessor.filter_outliers s data threshold = Except.ok data) ∧
    (3 ≤ data.length → popVariance data = 0 →
      DataProcessor.filter_outliers s data threshold = Except.ok data) ∧
    (3 ≤ data.length → popVariance data ≠ 0 →
      DataProcessor.filter_outliers s data threshold =
        Except.ok (data.filter (fun x =>
          decide (|x - listMean data| / s (popVariance data) < threshold)))) ∧
    (3 ≤ data.length → popVariance data ≠ 0 → threshold < 0 →
      DataProcessor.filter_outliers s data threshold = Except.ok []) := by
  have hvar := listMean_sqdev data
  have hsz : s (popVariance data) = 0 ↔ popVariance data = 0 := by
    constructor
    · intro h
      rw [← hs, h]
      ring
    · intro h
      have h2 : s (popVariance data) ^ 2 = 0 := by rw [hs, h]
      exact sq_eq_zero_iff.1 h2
  unfold DataProcessor.filter_outliers
  rw [if_neg hne]
  refine ⟨fun h => ?_, fun h3 hv => ?_, fun h3 hv => ?_, fun h3 hv ht => ?_⟩
  · rw [if_pos h]
  · rw [if_neg (by omega)]
    dsimp only
    simp only [hvar]
    rw [if_pos (hsz.2 hv)]
  · rw [if_neg (by omega)]
    dsimp only
    simp only [hvar]
    rw [if_neg (fun h => hv (hsz.1 h))]
  · rw [if_neg (by omega)]
    dsimp only
    simp only [hvar]
    rw [if_neg (fun h => hv (hsz.1 h))]
    have hall : ∀ x ∈ data,
        ¬(|x - listMean data| / s (popVariance data) < threshold) := by
      intro x _ hlt
      have hz : 0 ≤ |x - listMean data| / s (popVariance data) :=
        div_nonneg (abs_nonneg _) hs0
      linarith
    congr 1
    rw [List.filter_eq_nil_iff]
    intro a ha
    simp only [decide_eq_true_eq]
    exact hall a ha

/-- Witness for C1: on `[0, 0, 3, 3]` the variance is `9/4` with square
root `3/2`, every z-score is `1`, so threshold `2` keeps everything and
threshold `-1` keeps nothing; `[1, 2]` is returned unchanged as too
short. -/
theorem filter_outliers_zscore_witness :
    ([0, 0, 3, 3] : List ℚ) ≠ [] ∧
    (0 : ℚ) ≤ 3/2 ∧
    ((3 : ℚ)/2) ^ 2 = popVariance [0, 0, 3, 3] ∧
    DataProcessor.filter_outliers (fun _ => (3:ℚ)/2) [0, 0, 3, 3] 2 =
      Except.ok [0, 0, 3, 3] ∧
    DataProcessor.filter_outliers (fun _ => (3:ℚ)/2) [0, 0, 3, 3] (-1) =
      Except.ok [] ∧
    DataProcessor.filter_outliers (fun _ => (1:ℚ)/2) [1, 2] 2 = Except.ok [1, 2] := by
  have hvar : popVariance [0, 0, 3, 3] = 9/4 := by norm_num [popVariance, listMean]
  have hs0 : (0:ℚ) ≤ (fun _ : ℚ => (3:ℚ)/2) (popVariance [0, 0, 3, 3]) := by norm_num
  have hs : ((fun _ : ℚ => (3:ℚ)/2) (popVariance [0, 0, 3, 3])) ^ 2 =
      popVariance [0, 0, 3, 3] := by
    rw [hvar]
    norm_num
  have hv : popVariance [0, 0, 3, 3] ≠ 0 := by
    rw [hvar]
    norm_num
  have h := filter_outliers_zscore (fun _ => (3:ℚ)/2) [0, 0, 3, 3] 2
    (by decide) hs0 hs
  have hneg := filter_outliers_zscore (fun _ => (3:ℚ)/2) [0, 0, 3, 3] (-1)
    (by decide) hs0 hs
  have hshort := filter_outliers_zscore (fun _ => (1:ℚ)/2) [1, 2] 2
    (by decide) (by norm_num) (by norm_num [popVariance, listMean])
  refine ⟨by decide, by norm_num, by rw [hvar]; norm_num, ?_,
    hneg.2.2.2 (by decide) hv (by norm_num), hshort.1 (by decide)⟩
  rw [h.2.2.1 (by decide) hv]
  have hm : listMean [0, 0, 3, 3] = 3/2 := by norm_num [listMean]
  have h0 : decide (|(0:ℚ) - 3/2| / ((3:ℚ)/2) < 2) = true :=
    decide_eq_true (by norm_num [abs_of_nonpos])
  have h3 : decide (|(3:ℚ) - 3/2| / ((3:ℚ)/2) < 2) = true :=
    decide_eq_true (by norm_num [abs_of_nonneg])
  simp only [hm, List.filter, h0, h3]

end ExamplePackage
